import Mathlib

/-!
Verification of `processingpack/chipcollections.py` (MicrowellProcessor).

The Python classes are shallowly embedded: objects become structures, methods
become pure functions from the receiver (plus explicit models of external
inputs such as directory listings) to an `Except` value carrying either the
raised Python exception or the result.  Pandas DataFrames are modelled as
lists of rows keyed by an integer row index.  External collaborators (the
`chip.ChipImage` image-analysis library, the file system, the TIFF codec)
appear as opaque data carried in the structures or as explicit arguments.
String computations are carried out on `List Char` so that every definition
evaluates inside the kernel.
-/

set_option linter.unusedVariables false

/-- A raised Python exception, as relevant to this module: the exception
class together with its message or payload. -/
inductive PyErr where
  | valueError (msg : String)
  | keyError (key : String)
  | nameError (name : String)
  | attributeError (obj attr : String)
  | typeError (msg : String)
  deriving DecidableEq, Repr

/-- Python `s.split(sep)[-1]`: the text after the last occurrence of `sep`
(the whole string when `sep` does not occur). -/
def lastToken (sep : Char) (cs : List Char) : List Char :=
  (cs.reverse.takeWhile (fun c => c ≠ sep)).reverse

/-- `pathlib.Path.stem` for an ordinary file name: the name without its last
extension (names consumed by this module always carry a `.tif`-style
extension). -/
def stemChars (name : List Char) : List Char :=
  if '.' ∈ name then ((name.reverse.dropWhile (fun c => c ≠ '.')).drop 1).reverse
  else name

/-- The final component of a slash-separated path. -/
def lastComponent (p : List Char) : List Char := lastToken '/' p

/-- `pathlib.Path(p).stem`. -/
def pathStem (p : String) : String := ⟨stemChars (lastComponent p.data)⟩

/-- `pathlib.Path(p).parent` rendered as a string (`"."` for a bare name),
mirroring `os.path.dirname`-style trimming of the final component. -/
def parentDir (p : String) : String :=
  if '/' ∈ p.data then ⟨((p.data.reverse.dropWhile (fun c => c ≠ '/')).drop 1).reverse⟩
  else "."

/-- `os.path.join a b` for the shapes this module produces: an absolute
second argument discards the first, otherwise the parts are joined with a
single separator. -/
def osJoin (a b : String) : String :=
  if b.data.head? = some '/' then b
  else if a = "" then b
  else if a.data.getLast? = some '/' then a ++ b
  else a ++ "/" ++ b

/-- Substring test (Python `needle in hay`). -/
def containsSub (needle hay : List Char) : Bool :=
  hay.tails.any (fun t => needle.isPrefixOf t)

/-- Python `int(s)` restricted to the usage in this module: a non-empty
string of decimal digits parses; anything else raises `ValueError`.
(CPython also tolerates surrounding whitespace and a sign, which never occur
in the filename suffixes this code consumes.) -/
def pyInt (cs : List Char) : Except PyErr Nat :=
  if cs ≠ [] ∧ cs.all Char.isDigit then
    .ok (cs.foldl (fun a c => a * 10 + (c.toNat - 48)) 0)
  else .error (.valueError ("invalid literal for int() with base 10: " ++ ⟨cs⟩))

/-- UNIX glob matching restricted to the `*` wildcard — the only
metacharacter appearing in the patterns of this module. -/
def globMatch : List Char → List Char → Bool
  | [], cs => cs.isEmpty
  | '*'::ps, cs => cs.tails.any (fun suf => globMatch ps suf)
  | _::_, [] => false
  | p::ps, c::cs => (p == c) && globMatch ps cs

/-- `r.glob(pattern)` on a directory whose entries are `listing`, keeping
directory order (pathlib promises no particular order; every claim proved
below is insensitive to it). -/
def globFilter (pattern : String) (listing : List String) : List String :=
  listing.filter (fun n => globMatch pattern.data n.data)

/-- A cell value of a model DataFrame. -/
inductive Val where
  | int (n : Int)
  | str (s : String)
  | nan
  deriving DecidableEq, Repr

/-- One row of a model DataFrame: the row-index label and the cells as
(column label, value) pairs in column order (pandas permits duplicate
column labels, hence a list rather than a map). -/
structure Row where
  idx : Nat
  cols : List (String × Val)
  deriving DecidableEq, Repr

/-- A model DataFrame: rows in frame order, each carrying its index label. -/
abbrev DF := List Row

/-- `df[name] = v`: overwrite the column in place when present, else append
it as the last column. -/
def setColRow (name : String) (v : Val) (cs : List (String × Val)) : List (String × Val) :=
  if cs.any (fun c => c.1 == name) then
    cs.map (fun c => if c.1 == name then (c.1, v) else c)
  else cs ++ [(name, v)]

/-- `df[name] = v` on a whole frame (a scalar assignment stamps every row). -/
def setCol (name : String) (v : Val) (df : DF) : DF :=
  df.map (fun r => { r with cols := setColRow name v r.cols })

/-- `df.add_suffix(suf)`: every column label receives the suffix; the row
index is untouched. -/
def addSuffix (suf : String) (df : DF) : DF :=
  df.map (fun r => { r with cols := r.cols.map (fun c => (c.1 ++ suf, c.2)) })

/-- `df.drop(columns=names)`: raises `KeyError` when a requested label is
absent from the frame, otherwise removes the columns.  (The model keeps
cells per row; a real frame has one shared column axis, so label presence
is checked against every row.) -/
def dropColumns (names : List String) (df : DF) : Except PyErr DF :=
  if names.all (fun n => df.all (fun r => r.cols.any (fun c => c.1 == n))) then
    .ok (df.map (fun r => { r with cols := r.cols.filter (fun c => !(names.contains c.1)) }))
  else .error (.keyError (String.intercalate " " names ++ " not found in axis"))

/-- The row order established by `df.sort_index()`: ascending index labels. -/
def rowLE (a b : Row) : Prop := a.idx ≤ b.idx

instance : DecidableRel rowLE := fun a b => Nat.decLe a.idx b.idx

instance : IsTotal Row rowLE := ⟨fun a b => Nat.le_total a.idx b.idx⟩

instance : IsTrans Row rowLE := ⟨fun _ _ _ => Nat.le_trans⟩

/-- `df.sort_index()`: rows reordered into ascending index order.  pandas
does not promise a particular order among equal labels (its default sort
kind is unstable), so the theorems below rely only on the result being a
sorted permutation; the model fixes insertion sort as one definite choice. -/
def sortIndex (df : DF) : DF := df.insertionSort rowLE

/-- `pd.concat(dfs)`: raises `ValueError` on an empty list of frames,
otherwise stacks them in order. -/
def pdConcat (dfs : List DF) : Except PyErr DF :=
  if dfs.isEmpty then .error (.valueError "No objects to concatenate")
  else .ok dfs.flatten

/-- The distinct column labels of a frame, in first-appearance order. -/
def dedupFirstAux (seen : List String) : List String → List String
  | [] => []
  | a :: l => if seen.contains a then dedupFirstAux seen l else a :: dedupFirstAux (a :: seen) l

/-- The distinct column labels of a frame, in first-appearance order. -/
def colNames (df : DF) : List String :=
  dedupFirstAux [] (df.flatMap (fun r => r.cols.map Prod.fst))

/-- `spine.join(others, how='left', ...)` for a list of frames, under the
semantics of the pandas release this module targets (0.23): the join is by
row-index label with the spine's index kept as-is, a missing label in a
joined frame fills its columns with NaN, and the `lsuffix`/`rsuffix`
arguments are silently ignored for list operands.  Joined frames are looked
up by first matching row (their indexes are unique in this module's use). -/
def leftJoin (spine : DF) (others : List DF) : DF :=
  spine.map (fun r =>
    { r with cols := r.cols ++ others.flatMap (fun t =>
        match t.find? (fun r2 => r2.idx == r.idx) with
        | some r2 => r2.cols
        | none => (colNames t).map (fun n => (n, Val.nan))) })

/-- Model of the external `chip.ChipImage` collaborator: the constructor
arguments this module passes (source path, the one-entry index dict, chip
parameters), plus the summary table that the external image analysis would
produce from it — opaque to this module, hence simply carried as data. -/
structure ChipImageM where
  dataRef : String
  indexMap : List (String × Nat)
  channel : String
  exposure : Nat
  table : DF
  deriving DecidableEq, Repr

/-- The attribute state of a `ChipSeries` object (shared by the subclasses
`StandardSeries` and `Timecourse`, which differ only in their
constructors).  `chips` is `none` when the attribute holds Python `None`
and `some m` when it holds a dict, modelled as an association list in
insertion order with unique keys.  The `device` is opaque (its corners and
pinlist belong to the external collaborator). -/
structure ChipSeriesS where
  device : String
  attrs : Option String
  seriesIndexer : String
  description : String
  chips : Option (List (Nat × ChipImageM))
  seriesRoot : Option String
  deriving DecidableEq, Repr

/-- `Timecourse.__init__(device, description, attrs=None)`. -/
def timecourseInit (device description : String) (attrs : Option String := none) : ChipSeriesS :=
  { device := device, attrs := attrs, description := description,
    seriesIndexer := "time_s", chips := none, seriesRoot := none }

/-- `StandardSeries.__init__(device, description, attrs=None)`. -/
def standardSeriesInit (device description : String) (attrs : Option String := none) : ChipSeriesS :=
  { device := device, attrs := attrs, description := description,
    seriesIndexer := "concentration_uM", chips := none, seriesRoot := none }

/-- The default glob pattern of `ChipSeries.load_files`. -/
def defaultGlob : String := "*StitchedImg*.tif"

/-- The filename filter of `load_files`:
`not 'ChamberBorders' in i.stem or 'Summary' in i.stem`. -/
def borderFilter (n : String) : Bool :=
  !(containsSub "ChamberBorders".data (stemChars n.data))
    || containsSub "Summary".data (stemChars n.data)

/-- Python truthiness of the `indexes` argument (`None` or a list). -/
def truthy : Option (List Nat) → Bool
  | none => false
  | some l => !l.isEmpty

/-- `{int(path.stem.split('_')[-1]): path for path in img_paths}`: build the
record dict left to right; `int` may raise; a repeated key keeps its first
position and takes the later value. -/
def dictInsert (m : List (Nat × String)) (k : Nat) (v : String) : List (Nat × String) :=
  if m.any (fun kv => kv.1 == k) then m.map (fun kv => if kv.1 == k then (kv.1, v) else kv)
  else m ++ [(k, v)]

/-- The record dict of `load_files` (see `dictInsert`). -/
def buildRecord (paths : List String) : Except PyErr (List (Nat × String)) :=
  paths.foldlM (fun m p => do
    let k ← pyInt (lastToken '_' (pathStem p).data)
    .ok (dictInsert m k p)) []

/-- The matched, filtered and re-joined image paths of `load_files`, then
the record dict built from them. -/
def loadFilesRecord (root : String) (listing : List String) (globPattern : String) :
    Except PyErr (List (Nat × String)) :=
  let imgFiles := (globFilter globPattern listing).filter borderFilter
  let imgPaths := imgFiles.map (fun n => osJoin (parentDir root) (osJoin root n))
  buildRecord imgPaths

/-- `ChipSeries.load_files(root, channel, exposure, indexes, custom_glob)`.
The contents of the directory at `root` are an explicit argument `listing`
(the filenames, in directory order); `r.glob` yields the matching names.
The method always records the root, then loads only when `indexes` is
falsy; note `if custom_glob:` means an empty custom glob string also falls
back to the default pattern.  A freshly constructed `ChipImage` has no
summary yet: its external `table` is the empty frame placeholder. -/
def ChipSeriesS.loadFiles (s : ChipSeriesS) (root : String) (listing : List String)
    (channel : String) (exposure : Nat) (indexes : Option (List Nat) := none)
    (customGlob : Option String := none) : Except PyErr ChipSeriesS :=
  let s1 := { s with seriesRoot := some root }
  let globPattern := match customGlob with
    | some g => if g = "" then defaultGlob else g
    | none => defaultGlob
  if truthy indexes then .ok s1
  else do
    let record ← loadFilesRecord root listing globPattern
    .ok { s1 with chips := some (record.map (fun kv =>
      (kv.1, { dataRef := kv.2, indexMap := [(s1.seriesIndexer, kv.1)],
               channel := channel, exposure := exposure, table := [] }))) }

/-- `ChipSeries.summarize()`: for each chip append its stamped summary, then
`pd.concat(summaries).sort_index()`.  Iterating a `None` chips attribute
raises `TypeError`. -/
def ChipSeriesS.summarize (s : ChipSeriesS) : Except PyErr DF :=
  match s.chips with
  | none => .error (.typeError "NoneType object is not iterable")
  | some chips => do
      let summaries := chips.foldl
        (fun acc ir => acc ++ [setCol s.seriesIndexer (.int ir.1) ir.2.table]) []
      let cat ← pdConcat summaries
      .ok (sortIndex cat)

/-- Python `max(keys)`: `ValueError` on an empty sequence. -/
def pyMax : List Nat → Except PyErr Nat
  | [] => .error (.valueError "max() arg is an empty sequence")
  | k :: ks => .ok (ks.foldl Nat.max k)

/-- The key list of the chips dict (empty when the attribute is `None`;
callers below always guard on the dict being present). -/
def ChipSeriesS.keyList (s : ChipSeriesS) : List Nat :=
  (s.chips.getD []).map Prod.fst

/-- `StandardSeries.get_hs_key()`: `max(self.chips.keys())`.  A `None`
chips dict has no `.keys()`. -/
def getHsKey (s : ChipSeriesS) : Except PyErr Nat :=
  match s.chips with
  | none => .error (.attributeError "NoneType" "keys")
  | some chips => pyMax (chips.map Prod.fst)

/-- An observable action `StandardSeries` processing performs on the chips:
stamping a chip, finding its chambers directly, or mapping feature
positions from a source chip onto a target chip (with the optional
`features` keyword argument of `mapto`). -/
inductive Ev where
  | stamp (k : Nat)
  | findChambers (k : Nat)
  | mapto (src tgt : Nat) (features : Option String)
  deriving DecidableEq, Repr

/-- The actions of `StandardSeries.map_from_hs(mapto_args)`: for every key
in `all_keys - {hs}`, stamp that chip and map from the high standard onto
it.  Python iterates the key set in an unspecified order; the model uses
the dict insertion order with the high-standard key removed — every claim
proved below is insensitive to this order. -/
def mapFromHsEvents (s : ChipSeriesS) (features : Option String) : Except PyErr (List Ev) := do
  let hs ← getHsKey s
  .ok ((s.keyList.filter (fun k => k ≠ hs)).flatMap
        (fun k => [.stamp k, .mapto hs k features]))

/-- The actions of `StandardSeries.process(featuretype)`: stamp the high
standard, find its chambers directly, then `map_from_hs` with
`mapto_args = {'features': featuretype}`. -/
def processEvents (s : ChipSeriesS) (featuretype : String := "chamber") :
    Except PyErr (List Ev) := do
  let hs ← getHsKey s
  let rest ← mapFromHsEvents s (some featuretype)
  .ok ([.stamp hs, .findChambers hs] ++ rest)

/-- The attribute state of a `ChipQuant` object. -/
structure ChipQuantM where
  device : String
  description : String
  attrs : Option String
  chip : Option ChipImageM
  processed : Bool
  deriving DecidableEq, Repr

/-- `ChipQuant.summarize()`: the guarded summary.  The method body mutates
no attribute, so the model returns the unchanged receiver beside the
table; calling the external `summarize()` through a `None` chip would be an
`AttributeError`. -/
def ChipQuantM.summarize (q : ChipQuantM) : Except PyErr (DF × ChipQuantM) :=
  if q.processed then
    match q.chip with
    | some c => .ok (c.table, q)
    | none => .error (.attributeError "NoneType" "summarize")
  else .error (.valueError "Must first Process ChipQuant")

/-- The top-level attributes of CPython's `os` module that this source file
accesses legitimately.  The predicate `isdir` is a member of the `os.path`
submodule, not of `os` itself. -/
def osModuleAttrs : List String := ["path", "makedirs"]

/-- The expression `os.isdir(p)` from the source: an attribute lookup of
`isdir` on the `os` module, which raises `AttributeError` under CPython
before the directory (whose existence `existingDirs` models) is ever
consulted. -/
def osIsdir (existingDirs : List String) (p : String) : Except PyErr Bool :=
  if osModuleAttrs.contains "isdir" then .ok (existingDirs.contains p)
  else .error (.attributeError "os" "isdir")

/-- The file-system effects of a successful `save_summary_image`: the
wrapping directory created (`makedirs(..., exist_ok=True)`) and the image
path written by the TIFF codec. -/
structure SaveImageOut where
  madeDir : String
  wrote : String
  deriving DecidableEq, Repr

/-- `ChipQuant.save_summary_image(outPath_root=None)`, statement by
statement: take the chip's parent directory as the default target, and for
a truthy `outPath_root` evaluate `os.isdir(outPath_root)` (see `osIsdir`)
with a `ValueError` reserved for a missing export directory; then create
the `SummaryImages` folder and write `Summary_<stem>.tif` into it. -/
def ChipQuantM.saveSummaryImage (q : ChipQuantM) (existingDirs : List String)
    (outPathRoot : Option String) : Except PyErr SaveImageOut := do
  let c ← match q.chip with
    | some c => pure c
    | none => Except.error (.attributeError "NoneType" "data_ref")
  let outPath := parentDir c.dataRef
  let outPath ← match outPathRoot with
    | some r =>
        if r = "" then pure outPath
        else do
          let isdir ← osIsdir existingDirs r
          if !isdir then
            Except.error (.valueError ("Export directory does not exist: " ++ r))
          else pure r
    | none => pure outPath
  let target := osJoin outPath "SummaryImages"
  let name := "Summary_" ++ pathStem c.dataRef ++ ".tif"
  .ok { madeDir := target, wrote := osJoin target name }

/-- The attribute state of an `Assay` / `TurnoverAssay` object. -/
structure AssayM where
  device : String
  attrs : Option String
  description : String
  series : Option ChipSeriesS
  quants : List ChipQuantM
  deriving DecidableEq, Repr

/-- `TurnoverAssay.merge_summarize()`, transcribed statement by statement.
Note the source computes `toAdd = summary.drop(columns=['id'])` but then
appends `summary.add_suffix(...)` — the dropped frame is dead, so the
suffixed frames keep their `id` column.  A quant's chip summary is obtained
directly from its chip (`quant.chip.summarize()`), bypassing the
`processed` guard of `ChipQuant.summarize`. -/
def AssayM.mergeSummarize (a : AssayM) : Except PyErr DF := do
  let quantsCleaned ← a.quants.mapM (fun quant => do
    let desc := quant.description
    let summary ← match quant.chip with
      | some c => pure c.table
      | none => Except.error (.attributeError "NoneType" "summarize")
    let _toAdd ← dropColumns ["id"] summary
    pure (addSuffix ("_" ++ ⟨desc.data.map (fun ch => if ch = ' ' then '_' else ch)⟩) summary))
  let kinSummary ← match a.series with
    | some s => s.summarize
    | none => Except.error (.attributeError "NoneType" "summarize")
  .ok (leftJoin kinSummary quantsCleaned)

/-- The attribute state of an `AssaySeries` object: the ordered dict of
assays keyed by description, the two shared reference chips (opaque here),
and the discovered roots. -/
structure AssaySeriesS where
  device : String
  assays : List (String × AssayM)
  chamberRef : String
  buttonRef : String
  chamberRoot : Option String
  buttonRoot : Option String
  attrs : Option String
  deriving DecidableEq, Repr

/-- The message of the `load_kin` length check. -/
def kinLenMsg : String :=
  "Descriptions and series of different lengths. Number of assays and descriptions must match."

/-- The message of the `load_quants` length check. -/
def quantLenMsg : String := "Descriptions and paths must be of same length"

/-- One pass of the `load_kin` / `load_quants` loops over the zipped
references: build the per-item value (which may raise), then mutate
`self.assays[key]` — a missing key is a `KeyError`, and the mutation
rewrites that dict entry in place. -/
def assignAux {ι α : Type} (key : ι → String) (bld : ι → Except PyErr α)
    (upd : AssayM → α → AssayM) :
    List ι → List (String × AssayM) → Except PyErr (List (String × AssayM))
  | [], assays => .ok assays
  | it :: rest, assays =>
      match bld it with
      | .error e => .error e
      | .ok x =>
          if assays.any (fun kv => kv.1 == key it) then
            assignAux key bld upd rest
              (assays.map (fun kv => (kv.1, if kv.1 == key it then upd kv.2 x else kv.2)))
          else .error (.keyError (key it))

/-- `zip(descriptions, paths, [channel]*len_series, [exposure]*len_series)`
(Python `zip` truncates to the shortest operand). -/
def zipRefs (descriptions paths : List String) (n : Nat) (channel : String) (exposure : Nat) :
    List ((String × String) × (String × Nat)) :=
  (descriptions.zip paths).zip ((List.replicate n channel).zip (List.replicate n exposure))

/-- `AssaySeries.load_kin(descriptions, paths, channel, exposure)`:
length-check descriptions against the assay dict, then for each zipped
reference construct a `Timecourse`, load its files (`listings` supplies the
directory contents of each path) and assign it as that assay's series. -/
def AssaySeriesS.loadKin (a : AssaySeriesS) (listings : String → List String)
    (descriptions paths : List String) (channel : String) (exposure : Nat) :
    Except PyErr AssaySeriesS :=
  let lenSeries := a.assays.length
  if descriptions.length ≠ lenSeries then .error (.valueError kinLenMsg)
  else do
    let kinRefs := zipRefs descriptions paths lenSeries channel exposure
    let as ← assignAux (fun it => it.1.1)
      (fun it => (timecourseInit a.device it.1.1).loadFiles it.1.2 (listings it.1.2)
                    it.2.1 it.2.2 none none)
      (fun asy t => { asy with series := some t }) kinRefs a.assays
    .ok { a with assays := as }

/-- The `ChipQuant` that one `load_quants` iteration constructs:
`ChipQuant(self.device, 'Button_Quant')` followed by
`load_file(p, channel, exposure)` (a fresh chip has no summary yet). -/
def quantOf (device p channel : String) (exposure : Nat) : ChipQuantM :=
  { device := device, description := "Button_Quant", attrs := none,
    chip := some { dataRef := p, indexMap := [], channel := channel,
                   exposure := exposure, table := [] },
    processed := false }

/-- `AssaySeries.load_quants(descriptions, paths, channel, exposure)`:
length-check descriptions against paths; a single description broadcasts —
descriptions become the assay keys and the one path is repeated
(`paths * len_series`); then each zipped reference appends a fresh
`Button_Quant` to the matching assay. -/
def AssaySeriesS.loadQuants (a : AssaySeriesS) (descriptions paths : List String)
    (channel : String) (exposure : Nat) : Except PyErr AssaySeriesS :=
  if descriptions.length ≠ paths.length then .error (.valueError quantLenMsg)
  else do
    let lenSeries := a.assays.length
    let dp := if descriptions.length == 1
      then (a.assays.map Prod.fst, (List.replicate lenSeries paths).flatten)
      else (descriptions, paths)
    let bqRefs := zipRefs dp.1 dp.2 lenSeries channel exposure
    let as ← assignAux (fun it => it.1.1)
      (fun it => pure (quantOf a.device it.1.2 it.2.1 it.2.2))
      (fun asy q => { asy with quants := asy.quants ++ [q] }) bqRefs a.assays
    .ok { a with assays := as }

/-- A right-hand side of a constructor statement `self.<attr> = <expr>`:
either a bare name (to be resolved in the enclosing scope) or one of the
literals these constructors use. -/
inductive PyExpr where
  | name (n : String)
  | noneLit
  | emptyDict
  | strLit (s : String)
  deriving DecidableEq, Repr

/-- The value such an expression produces, over opaque argument values `V`. -/
inductive PyVal (V : Type) where
  | arg (v : V)
  | pynone
  | dict
  | str (s : String)
  deriving DecidableEq, Repr

/-- Evaluate a constructor right-hand side in the scope of the constructor
parameters: a bare name resolves in the environment or raises `NameError`. -/
def evalExpr {V : Type} (env : List (String × V)) : PyExpr → Except PyErr (PyVal V)
  | .name n =>
      match env.find? (fun kv => kv.1 == n) with
      | some kv => .ok (.arg kv.2)
      | none => .error (.nameError n)
  | .noneLit => .ok .pynone
  | .emptyDict => .ok .dict
  | .strLit s => .ok (.str s)

/-- Run a constructor body (its `self.<attr> = <expr>` statements, in
source order) left to right, producing the attribute dict of the new
object or the first exception raised. -/
def runInit {V : Type} (env : List (String × V)) :
    List (String × PyExpr) → Except PyErr (List (String × PyVal V))
  | [] => .ok []
  | (attr, e) :: rest => do
      let v ← evalExpr env e
      let r ← runInit env rest
      .ok ((attr, v) :: r)

/-- The body of `ChipSeries.__init__(self, device, series_index, attrs)`,
statement by statement from the source.  The fourth statement reads the
bare name `description`, which is not among the parameters and not defined
locally. -/
def chipSeriesInitBody : List (String × PyExpr) :=
  [("device", .name "device"), ("attrs", .name "attrs"),
   ("series_indexer", .name "series_index"), ("description", .name "description"),
   ("chips", .emptyDict), ("series_root", .noneLit)]

/-- The body of `StandardSeries.__init__(self, device, description, attrs)`. -/
def standardSeriesInitBody : List (String × PyExpr) :=
  [("device", .name "device"), ("attrs", .name "attrs"),
   ("series_indexer", .strLit "concentration_uM"), ("description", .name "description"),
   ("chips", .noneLit), ("series_root", .noneLit)]

/-- The body of `Timecourse.__init__(self, device, description, attrs)`. -/
def timecourseInitBody : List (String × PyExpr) :=
  [("device", .name "device"), ("attrs", .name "attrs"),
   ("description", .name "description"), ("series_indexer", .strLit "time_s"),
   ("chips", .noneLit), ("series_root", .noneLit)]

/-- Constructing a bare `ChipSeries(device, series_index, attrs)`: run the
constructor body in the scope of its parameters. -/
def chipSeriesInitRun {V : Type} (self device series_index attrs : V) :
    Except PyErr (List (String × PyVal V)) :=
  runInit [("self", self), ("device", device), ("series_index", series_index),
           ("attrs", attrs)] chipSeriesInitBody

/-- Constructing a `StandardSeries(device, description, attrs)`. -/
def standardSeriesInitRun {V : Type} (self device description attrs : V) :
    Except PyErr (List (String × PyVal V)) :=
  runInit [("self", self), ("device", device), ("description", description),
           ("attrs", attrs)] standardSeriesInitBody

/-- Constructing a `Timecourse(device, description, attrs)`. -/
def timecourseInitRun {V : Type} (self device description attrs : V) :
    Except PyErr (List (String × PyVal V)) :=
  runInit [("self", self), ("device", device), ("description", description),
           ("attrs", attrs)] timecourseInitBody

/-- The chip keys a `load_files` call produced: `none` when the call raised
or left the chips attribute as `None`, otherwise the key list. -/
def chipKeysE (r : Except PyErr ChipSeriesS) : Option (List Nat) :=
  match r with
  | .ok s => s.chips.map (fun m => m.map Prod.fst)
  | .error _ => none

/-- The frame of a successful summarization (empty on an exception);
used to read single columns out of concrete evaluations. -/
def okDF : Except PyErr DF → DF
  | .ok df => df
  | .error _ => []

/-- A fresh `Timecourse` used by the concrete `load_files` evaluations. -/
def tcTest : ChipSeriesS := timecourseInit "dev" "kin" none

/-- The kinetic summary table of the concrete merge example. -/
def c1KinTable : DF := [⟨0, [("intensity", .int 10)]⟩]

/-- The button-quant summary table of the concrete merge example: an `id`
identifier column and one value column. -/
def c1QuantTable : DF := [⟨0, [("id", .str "MUT1"), ("intensity", .int 5)]⟩]

/-- The kinetic chip of the concrete merge example. -/
def c1Chip : ChipImageM :=
  { dataRef := "k.tif", indexMap := [("time_s", 1)], channel := "c",
    exposure := 1, table := c1KinTable }

/-- The chips dict of the concrete merge example: one chip at time 1. -/
def c1Chips : List (Nat × ChipImageM) := [(1, c1Chip)]

/-- The series of the concrete merge example. -/
def c1Series : ChipSeriesS :=
  { device := "d", attrs := none, seriesIndexer := "time_s", description := "kin",
    chips := some c1Chips, seriesRoot := none }

/-- The assay of the concrete merge example: the series above plus one
processed quant described as `Button Quant` (note the space). -/
def c1Assay : AssayM :=
  { device := "d", attrs := none, description := "a", series := some c1Series,
    quants := [{ device := "d", description := "Button Quant", attrs := none,
                 chip := some { dataRef := "q.tif", indexMap := [], channel := "c",
                                exposure := 1, table := c1QuantTable },
                 processed := true }] }

/-- A loaded chip for the `ChipQuant` evaluations. -/
def c4Chip : ChipImageM := ⟨"b.tif", [], "c", 1, [⟨0, [("summed", .int 7)]⟩]⟩

/-- A processed quant owning `c4Chip`. -/
def c4Quant : ChipQuantM := ⟨"d", "q", none, some c4Chip, true⟩

/-- The per-chip summaries of a series, each stamped with its key in the
`series_indexer` column and concatenated in dict order — the declarative
shape `ChipSeries.summarize` is claimed to sort. -/
def stampedSummaries (s : ChipSeriesS) (chips : List (Nat × ChipImageM)) : DF :=
  chips.flatMap (fun ic => setCol s.seriesIndexer (.int ic.1) ic.2.table)

/-- Whether a processing action touches the chip keyed `k` (the chip that
is stamped, whose chambers are found, or that is the target of a mapping). -/
def actsOn (k : Nat) : Ev → Bool
  | .stamp k2 => k2 == k
  | .findChambers k2 => k2 == k
  | .mapto _ tgt _ => tgt == k

/-- The chips dict of the concrete standard-series evaluation: keys 1, 2, 5. -/
def c5Chips : List (Nat × ChipImageM) := [(1, c4Chip), (2, c4Chip), (5, c4Chip)]

/-- A loaded `StandardSeries` with keys 1, 2, 5. -/
def c5Series : ChipSeriesS :=
  { standardSeriesInit "dev" "std" none with chips := some c5Chips }

/-- An empty assay used by the `AssaySeries` loading evaluations. -/
def wAssay (d : String) : AssayM :=
  { device := "dev", attrs := none, description := d, series := none, quants := [] }

/-- An `AssaySeries` over assays `A` and `B` for the loading evaluations. -/
def wSeries : AssaySeriesS :=
  { device := "dev", assays := [("A", wAssay "A"), ("B", wAssay "B")],
    chamberRef := "cr", buttonRef := "br", chamberRoot := none,
    buttonRoot := none, attrs := none }

/-- The `Timecourse` that `load_kin` builds from description `d` and an
empty directory at `p`. -/
def wTS (d p : String) : ChipSeriesS :=
  { device := "dev", attrs := none, seriesIndexer := "time_s", description := d,
    chips := some [], seriesRoot := some p }

/-- C1: `merge_summarize` was claimed to drop each quant's `id` column
before suffixing.  Evaluating the transcribed source on a quant whose
summary has columns `id, intensity` and description `Button Quant` shows
the suffixed output still contains an `id_Button_Quant` column — the
`drop` result is computed but discarded — while the spine/left-join
structure behaves as described. -/
theorem C1_merge_keeps_id_column :
    c1Assay.mergeSummarize =
      .ok [⟨0, [("intensity", .int 10), ("time_s", .int 1),
                ("id_Button_Quant", .str "MUT1"),
                ("intensity_Button_Quant", .int 5)]⟩]
    ∧ "id_Button_Quant" ∈ colNames (okDF c1Assay.mergeSummarize) := by
  constructor
  · rfl
  · decide

/-- C2: with any truthy `outPath_root`, `save_summary_image` evaluates
`os.isdir(outPath_root)` — an attribute that does not exist on the `os`
module — and so raises `AttributeError` before the existence check, the
`ValueError`, or any write can happen; this holds whether or not the
directory exists. -/
theorem C2_save_summary_image_attribute_error (q : ChipQuantM) (c : ChipImageM)
    (existingDirs : List String) (r : String) (hc : q.chip = some c) (hr : r ≠ "") :
    q.saveSummaryImage existingDirs (some r) = .error (.attributeError "os" "isdir") := by
  have hos : ∀ (ed : List String) (p : String),
      osIsdir ed p = .error (.attributeError "os" "isdir") := fun _ _ => rfl
  simp [ChipQuantM.saveSummaryImage, hc, hr, hos]
  rfl

/-- C2 witness: even for an existing export directory the call raises
`AttributeError`. -/
theorem C2_save_summary_image_attribute_error_witness :
    c4Quant.saveSummaryImage ["/tmp"] (some "/tmp") = .error (.attributeError "os" "isdir") :=
  C2_save_summary_image_attribute_error c4Quant c4Chip ["/tmp"] "/tmp" rfl (by decide)

/-- C3 counterexample: the files `img_1.tif`, `img_2.tif`, `img_5.tif`
do not match the default glob `*StitchedImg*.tif`, so `load_files` with
default `indexes`/`custom_glob` yields an empty chips mapping, not keys
`{1, 2, 5}`. -/
theorem C3_default_glob_counterexample :
    chipKeysE (tcTest.loadFiles "data" ["img_1.tif", "img_2.tif", "img_5.tif"]
        "2_BF" 50 none none) = some []
    ∧ some ([] : List Nat) ≠ some [1, 2, 5] := by
  constructor
  · rfl
  · decide

/-- C3 amended: for a directory containing exactly files whose names match
the default glob — `StitchedImg_1.tif`, `StitchedImg_2.tif`,
`StitchedImg_5.tif` — `load_files` with defaults produces exactly the keys
`{1, 2, 5}`, each parsed from the text after the last underscore of the
stem. -/
theorem C3_load_files_keys_amended :
    chipKeysE (tcTest.loadFiles "data"
        ["StitchedImg_1.tif", "StitchedImg_2.tif", "StitchedImg_5.tif"]
        "2_BF" 50 none none) = some [1, 2, 5] := by
  rfl

/-- C4: `ChipQuant.summarize` on a quant with a loaded chip raises its
defined `ValueError` exactly when `processed` is false; when `processed` is
true it returns the owned chip's summary table and the receiver unchanged. -/
theorem C4_chipquant_summarize_guard (q : ChipQuantM) (c : ChipImageM)
    (hc : q.chip = some c) :
    ((∃ e, q.summarize = .error e) ↔ q.processed = false)
    ∧ (q.processed = true → q.summarize = .ok (c.table, q))
    ∧ (q.processed = false →
        q.summarize = .error (.valueError "Must first Process ChipQuant")) := by
  cases hp : q.processed <;> simp [ChipQuantM.summarize, hp, hc]

/-- C4 witness: the guard evaluated on a concrete processed quant. -/
theorem C4_chipquant_summarize_guard_witness :
    ((∃ e, c4Quant.summarize = .error e) ↔ c4Quant.processed = false)
    ∧ (c4Quant.processed = true → c4Quant.summarize = .ok (c4Chip.table, c4Quant))
    ∧ (c4Quant.processed = false →
        c4Quant.summarize = .error (.valueError "Must first Process ChipQuant")) :=
  C4_chipquant_summarize_guard c4Quant c4Chip rfl

/-- C9: constructing a bare `ChipSeries` always raises `NameError` on the
undefined name `description`, for every argument tuple; the subclasses
that override `__init__` (`StandardSeries`, `Timecourse`) construct
successfully. -/
theorem C9_chipseries_init_name_error {V : Type} (self device series_index attrs : V) :
    chipSeriesInitRun self device series_index attrs = .error (.nameError "description")
    ∧ (∀ description : V,
        standardSeriesInitRun self device description attrs =
          .ok [("device", .arg device), ("attrs", .arg attrs),
               ("series_indexer", .str "concentration_uM"),
               ("description", .arg description),
               ("chips", .pynone), ("series_root", .pynone)]
        ∧ timecourseInitRun self device description attrs =
          .ok [("device", .arg device), ("attrs", .arg attrs),
               ("description", .arg description), ("series_indexer", .str "time_s"),
               ("chips", .pynone), ("series_root", .pynone)]) :=
  ⟨rfl, fun _ => ⟨rfl, rfl⟩⟩

/-- C10: with truthy `indexes`, `load_files` records the series root and
changes nothing else — no file is discovered or loaded and the chips
mapping is untouched. -/
theorem C10_load_files_truthy_indexes_only_sets_root (s : ChipSeriesS) (root : String)
    (listing : List String) (channel : String) (exposure : Nat)
    (indexes : Option (List Nat)) (customGlob : Option String)
    (ht : truthy indexes = true) :
    s.loadFiles root listing channel exposure indexes customGlob =
      .ok { s with seriesRoot := some root } := by
  simp [ChipSeriesS.loadFiles, ht]

/-- C10 witness: a non-empty `indexes` list on a populated series. -/
theorem C10_load_files_truthy_indexes_witness :
    c1Series.loadFiles "r" ["StitchedImg_1.tif"] "c" 1 (some [3]) none =
      .ok { c1Series with seriesRoot := some "r" } :=
  C10_load_files_truthy_indexes_only_sets_root c1Series "r" ["StitchedImg_1.tif"]
    "c" 1 (some [3]) none rfl

/-- Reduction of an exception monad bind on a success. -/
@[simp]
theorem except_bind_ok {ε α β : Type} (a : α) (f : α → Except ε β) :
    (Except.ok a : Except ε α) >>= f = f a := rfl

/-- Reduction of an exception monad bind on a raised exception. -/
@[simp]
theorem except_bind_error {ε α β : Type} (e : ε) (f : α → Except ε β) :
    (Except.error e : Except ε α) >>= f = Except.error e := rfl

/-- The summary loop of `ChipSeries.summarize` builds exactly the mapped
list of stamped frames. -/
theorem foldl_append_map {α β : Type} (f : α → β) (l : List α) (acc : List β) :
    l.foldl (fun a x => a ++ [f x]) acc = acc ++ l.map f := by
  induction l generalizing acc with
  | nil => simp
  | cons x xs ih => simp [ih, List.append_assoc]

/-- C8: with an empty chips dict, `summarize` raises (concatenating zero
frames fails); with a non-empty dict it returns a frame that is a sorted
permutation of the stamped, concatenated per-chip summaries. -/
theorem C8_series_summarize (s : ChipSeriesS) (chips : List (Nat × ChipImageM))
    (hc : s.chips = some chips) :
    ((∃ e, s.summarize = .error e) ↔ chips = [])
    ∧ (chips = [] → s.summarize = .error (.valueError "No objects to concatenate"))
    ∧ (chips ≠ [] → ∃ df, s.summarize = .ok df
        ∧ df.Perm (stampedSummaries s chips) ∧ List.Sorted rowLE df) := by
  cases chips with
  | nil =>
      have h0 : s.summarize = .error (.valueError "No objects to concatenate") := by
        simp [ChipSeriesS.summarize, hc, pdConcat]
      simp [h0]
  | cons c0 cs =>
      have h0 : s.summarize =
          .ok (sortIndex (stampedSummaries s (c0 :: cs))) := by
        simp [ChipSeriesS.summarize, hc, pdConcat, foldl_append_map, stampedSummaries,
          List.flatMap]
      refine ⟨by simp [h0], by simp, fun _ => ⟨_, h0, ?_, ?_⟩⟩
      · exact List.perm_insertionSort rowLE _
      · exact List.sorted_insertionSort rowLE _

/-- C8 witness: the guard and shape evaluated on the concrete one-chip
series of the merge example. -/
theorem C8_series_summarize_witness :
    ((∃ e, c1Series.summarize = .error e) ↔ c1Chips = [])
    ∧ (c1Chips = [] → c1Series.summarize = .error (.valueError "No objects to concatenate"))
    ∧ (c1Chips ≠ [] → ∃ df, c1Series.summarize = .ok df
        ∧ df.Perm (stampedSummaries c1Series c1Chips) ∧ List.Sorted rowLE df) :=
  C8_series_summarize c1Series c1Chips rfl

/-- The left fold of `Nat.max` stays in the folded list (with its seed). -/
theorem foldl_max_mem (a : Nat) (l : List Nat) : l.foldl Nat.max a ∈ a :: l := by
  induction l generalizing a with
  | nil => simp
  | cons x xs ih =>
      simp only [List.foldl_cons]
      rcases List.mem_cons.mp (ih (Nat.max a x)) with h1 | h1
      · rw [h1]
        have hx2 : Nat.max a x = a ∨ Nat.max a x = x := by
          rcases Nat.le_total a x with h | h
          · exact Or.inr (Nat.max_eq_right h)
          · exact Or.inl (Nat.max_eq_left h)
        rcases hx2 with hx2 | hx2
        · simp [hx2]
        · simp [hx2]
      · exact List.mem_cons.mpr (Or.inr (List.mem_cons.mpr (Or.inr h1)))

/-- The left fold of `Nat.max` bounds its seed and every folded element. -/
theorem le_foldl_max (a : Nat) (l : List Nat) :
    a ≤ l.foldl Nat.max a ∧ ∀ x ∈ l, x ≤ l.foldl Nat.max a := by
  induction l generalizing a with
  | nil => simp
  | cons y ys ih =>
      obtain ⟨h1, h2⟩ := ih (Nat.max a y)
      refine ⟨le_trans (Nat.le_max_left a y) h1, ?_⟩
      intro x hx
      rcases List.mem_cons.mp hx with rfl | hx
      · exact le_trans (Nat.le_max_right a x) (by simpa using h1)
      · exact h2 x hx

/-- `max(keys)` on a non-empty list returns a maximal member. -/
theorem pyMax_spec (l : List Nat) (hl : l ≠ []) :
    ∃ m, pyMax l = .ok m ∧ m ∈ l ∧ ∀ x ∈ l, x ≤ m := by
  cases l with
  | nil => exact absurd rfl hl
  | cons a xs =>
      refine ⟨xs.foldl Nat.max a, rfl, foldl_max_mem a xs, ?_⟩
      intro x hx
      rcases List.mem_cons.mp hx with rfl | hx
      · exact (le_foldl_max x xs).1
      · exact (le_foldl_max a xs).2 x hx

/-- C5: for a loaded `StandardSeries` with a non-empty chips dict, the high
standard is the maximum key; `process` stamps the high standard and finds
its chambers directly, maps from it exactly onto the keys other than the
high-standard key (each such chip being stamped and mapped), and performs
no other action on the high standard. -/
theorem C5_standard_series_process (s : ChipSeriesS) (chips : List (Nat × ChipImageM))
    (hc : s.chips = some chips) (hne : chips ≠ []) (ft : String) :
    ∃ hs evs, getHsKey s = .ok hs ∧ processEvents s ft = .ok evs
      ∧ hs ∈ chips.map Prod.fst
      ∧ (∀ k ∈ chips.map Prod.fst, k ≤ hs)
      ∧ (∀ k feats, Ev.mapto hs k feats ∈ evs ↔
            feats = some ft ∧ k ∈ chips.map Prod.fst ∧ k ≠ hs)
      ∧ evs.filter (actsOn hs) = [Ev.stamp hs, Ev.findChambers hs]
      ∧ (∀ k ∈ chips.map Prod.fst, k ≠ hs →
            Ev.stamp k ∈ evs ∧ Ev.mapto hs k (some ft) ∈ evs) := by
  obtain ⟨m, hm, hmem, hmax⟩ := pyMax_spec (chips.map Prod.fst)
    (fun h => hne (by simpa using h))
  have hget : getHsKey s = .ok m := by simp [getHsKey, hc, hm]
  have hkeys : s.keyList = chips.map Prod.fst := by simp [ChipSeriesS.keyList, hc]
  have hevs : processEvents s ft = .ok ([Ev.stamp m, Ev.findChambers m] ++
      ((chips.map Prod.fst).filter (fun k => k ≠ m)).flatMap
        (fun k => [Ev.stamp k, Ev.mapto m k (some ft)])) := by
    simp [processEvents, mapFromHsEvents, hget, hkeys]
  refine ⟨m, _, hget, hevs, hmem, hmax, ?_, ?_, ?_⟩
  · intro k feats
    simp only [List.mem_append, List.mem_cons, List.mem_flatMap, List.mem_filter,
      List.not_mem_nil, or_false, decide_eq_true_eq]
    constructor
    · rintro ((h | h) | ⟨x, ⟨hx, hxm⟩, h2 | h2⟩)
      · exact Ev.noConfusion h
      · exact Ev.noConfusion h
      · exact Ev.noConfusion h2
      · obtain ⟨-, h4, h5⟩ := Ev.mapto.inj h2
        subst h4
        exact ⟨h5, hx, hxm⟩
    · rintro ⟨rfl, hk, hkm⟩
      exact Or.inr ⟨k, ⟨hk, hkm⟩, Or.inr rfl⟩
  · rw [List.filter_append]
    have h1 : (([Ev.stamp m, Ev.findChambers m] : List Ev).filter (actsOn m)) =
        [Ev.stamp m, Ev.findChambers m] := by simp [actsOn]
    have h2 : ((((chips.map Prod.fst).filter (fun k => k ≠ m)).flatMap
        (fun k => [Ev.stamp k, Ev.mapto m k (some ft)])).filter (actsOn m)) = [] := by
      rw [List.filter_eq_nil_iff]
      intro e he
      obtain ⟨x, hx, hin⟩ := List.mem_flatMap.mp he
      have hxm : x ≠ m := of_decide_eq_true (List.mem_filter.mp hx).2
      rcases List.mem_cons.mp hin with rfl | h3
      · simp [actsOn]
        exact hxm
      · rcases List.mem_cons.mp h3 with rfl | h4
        · simp [actsOn]
          exact hxm
        · exact absurd h4 (List.not_mem_nil _)
    rw [h1, h2, List.append_nil]
  · intro k hk hkm
    constructor
    · exact List.mem_append.mpr (Or.inr (List.mem_flatMap.mpr
        ⟨k, List.mem_filter.mpr ⟨hk, decide_eq_true hkm⟩, by simp⟩))
    · exact List.mem_append.mpr (Or.inr (List.mem_flatMap.mpr
        ⟨k, List.mem_filter.mpr ⟨hk, decide_eq_true hkm⟩, by simp⟩))

/-- C5 witness: the high standard of the concrete series with keys 1, 2, 5. -/
theorem C5_standard_series_process_witness :
    ∃ hs evs, getHsKey c5Series = .ok hs ∧ processEvents c5Series "chamber" = .ok evs
      ∧ hs ∈ c5Chips.map Prod.fst
      ∧ (∀ k ∈ c5Chips.map Prod.fst, k ≤ hs)
      ∧ (∀ k feats, Ev.mapto hs k feats ∈ evs ↔
            feats = some "chamber" ∧ k ∈ c5Chips.map Prod.fst ∧ k ≠ hs)
      ∧ evs.filter (actsOn hs) = [Ev.stamp hs, Ev.findChambers hs]
      ∧ (∀ k ∈ c5Chips.map Prod.fst, k ≠ hs →
            Ev.stamp k ∈ evs ∧ Ev.mapto hs k (some "chamber") ∈ evs) :=
  C5_standard_series_process c5Series c5Chips rfl (by decide) "chamber"

/-- Zipping against a long-enough replicated list pairs every element with
the replicated constant. -/
theorem zip_replicate_of_le {α β : Type} (x : β) :
    ∀ (l : List α) (n : Nat), l.length ≤ n →
      l.zip (List.replicate n x) = l.map (fun a => (a, x)) := by
  intro l
  induction l with
  | nil => intro n _; simp
  | cons a as ih =>
      intro n hn
      cases n with
      | zero => simp at hn
      | succ m =>
          simp only [List.replicate_succ, List.zip_cons_cons, List.map_cons]
          rw [ih m (by simpa using hn)]

/-- Zipping two equally replicated lists replicates the pair. -/
theorem replicate_zip_replicate {β γ : Type} (b : β) (c : γ) (n : Nat) :
    (List.replicate n b).zip (List.replicate n c) = List.replicate n (b, c) := by
  induction n with
  | zero => simp
  | succ m ih => simp [List.replicate_succ, ih]

/-- The zipped references of the loading loops, in the well-formed case:
each description/path pair tagged with the constant channel and exposure. -/
theorem zipRefs_eq (descriptions paths : List String) (n : Nat) (channel : String)
    (exposure : Nat) (h1 : descriptions.length = paths.length)
    (h2 : descriptions.length ≤ n) :
    zipRefs descriptions paths n channel exposure =
      (descriptions.zip paths).map (fun dp => (dp, (channel, exposure))) := by
  unfold zipRefs
  rw [replicate_zip_replicate]
  apply zip_replicate_of_le
  rw [List.length_zip]
  omega

/-- `find?` through a `map`. -/
theorem find?_map_local {α β : Type} (f : α → β) (p : β → Bool) :
    ∀ l : List α, (l.map f).find? p = (l.find? (fun a => p (f a))).map f := by
  intro l
  induction l with
  | nil => simp
  | cons a as ih =>
      cases h : p (f a) with
      | true => simp [List.find?_cons, h]
      | false => simp [List.find?_cons, h, ih]

/-- `find?` looking up a key present among the dict's keys returns some
entry carrying exactly that key. -/
theorem find?_fst_beq (l : List (String × AssayM)) (q : String)
    (h : q ∈ l.map Prod.fst) :
    ∃ kv0, l.find? (fun x => x.1 == q) = some kv0 ∧ kv0.1 = q := by
  have hs : (l.find? (fun x => x.1 == q)).isSome := by
    apply List.find?_isSome.mpr
    obtain ⟨kv0, hkv0, rfl⟩ := List.mem_map.mp h
    exact ⟨kv0, hkv0, by simp⟩
  obtain ⟨kv0, hkv0⟩ := Option.isSome_iff_exists.mp hs
  exact ⟨kv0, hkv0, by simpa using List.find?_some hkv0⟩

/-- A key present in the dict makes the membership test of the loading
loops succeed. -/
theorem any_beq_of_mem (assays : List (String × AssayM)) (k : String)
    (h : k ∈ assays.map Prod.fst) : assays.any (fun kv => kv.1 == k) = true := by
  obtain ⟨kv, hkv, rfl⟩ := List.mem_map.mp h
  exact List.any_eq_true.mpr ⟨kv, hkv, by simp⟩

/-- Python `[x] * n` flattened. -/
theorem flatten_replicate_singleton {α : Type} (x : α) (n : Nat) :
    (List.replicate n [x]).flatten = List.replicate n x := by
  induction n with
  | zero => rfl
  | succ m ih => simp [List.replicate_succ, ih]

/-- The assignment loop of `load_kin` / `load_quants`, run over items with
distinct keys, all of which are present in the assay dict and all of whose
builders succeed: it succeeds, and rewrites exactly the entries whose key
occurs among the items, applying the update built from the first (unique)
matching item. -/
theorem assignAux_ok {ι α : Type} (key : ι → String) (bld : ι → Except PyErr α)
    (f : ι → α) (upd : AssayM → α → AssayM) :
    ∀ (items : List ι) (assays : List (String × AssayM)),
      (items.map key).Nodup →
      (∀ it ∈ items, bld it = .ok (f it)) →
      (∀ it ∈ items, assays.any (fun kv => kv.1 == key it) = true) →
      assignAux key bld upd items assays = .ok (assays.map (fun kv =>
        (kv.1, match items.find? (fun it => key it == kv.1) with
               | some it => upd kv.2 (f it)
               | none => kv.2))) := by
  intro items
  induction items with
  | nil =>
      intro assays hnd hbld hmem
      simp [assignAux]
  | cons it rest ih =>
      intro assays hnd hbld hmem
      have hb : bld it = .ok (f it) := hbld it (List.mem_cons_self _ _)
      have hm : assays.any (fun kv => kv.1 == key it) = true :=
        hmem it (List.mem_cons_self _ _)
      have hnd2 : (key it :: rest.map key).Nodup := by simpa using hnd
      have hnotin : ∀ it2 ∈ rest, key it2 ≠ key it := by
        intro it2 h2 heq
        exact (List.nodup_cons.mp hnd2).1 (heq ▸ List.mem_map_of_mem key h2)
      have hkeys2 : ∀ it2 ∈ rest,
          (assays.map (fun kv =>
            (kv.1, if kv.1 == key it then upd kv.2 (f it) else kv.2))).any
            (fun kv => kv.1 == key it2) = true := by
        intro it2 h2
        have h3 := hmem it2 (List.mem_cons_of_mem _ h2)
        rw [List.any_map]
        simpa [Function.comp] using h3
      simp only [assignAux, hb, hm, if_true]
      rw [ih _ (List.nodup_cons.mp hnd2).2
        (fun it2 h2 => hbld it2 (List.mem_cons_of_mem _ h2)) hkeys2]
      apply congrArg
      rw [List.map_map]
      apply List.map_congr_left
      intro kv hkv
      simp only [Function.comp]
      by_cases hk : kv.1 = key it
      · have hpa : (key it == kv.1) = true := by simp [hk]
        have hfind : rest.find? (fun it2 => key it2 == kv.1) = none := by
          apply List.find?_eq_none.mpr
          intro it2 h2
          simp only [beq_iff_eq, hk]
          exact hnotin it2 h2
        have hkb : (kv.1 == key it) = true := by simp [hk]
        simp [List.find?_cons, hpa, hfind, hkb]
      · have hpa : (key it == kv.1) = false := by
          simp only [beq_eq_false_iff_ne, ne_eq]
          exact fun h => hk h.symm
        have hkb : (kv.1 == key it) = false := by
          simp only [beq_eq_false_iff_ne, ne_eq]
          exact hk
        simp only [List.find?_cons, hpa, hkb, if_false]
        cases h : rest.find? (fun it2 => key it2 == kv.1) <;> simp [h]

/-- C6: `load_kin` raises its defined length-mismatch `ValueError` exactly
when the number of descriptions differs from the number of assays; with
equal lengths and valid inputs (distinct descriptions naming existing
assays, one path per description, loadable directories) it assigns each
named assay's series field exactly once, pairing descriptions with paths
by position (`ts d p` abbreviates the `Timecourse` loaded for description
`d` from path `p`). -/
theorem C6_load_kin (a : AssaySeriesS) (listings : String → List String)
    (descriptions paths : List String) (channel : String) (exposure : Nat)
    (ts : String → String → ChipSeriesS)
    (hlenp : paths.length = descriptions.length)
    (hnd : descriptions.Nodup)
    (hkeys : ∀ d ∈ descriptions, a.assays.any (fun kv => kv.1 == d) = true)
    (hload : ∀ d p, (timecourseInit a.device d).loadFiles p (listings p) channel exposure
        none none = .ok (ts d p)) :
    (a.loadKin listings descriptions paths channel exposure = .error (.valueError kinLenMsg)
      ↔ descriptions.length ≠ a.assays.length)
    ∧ (descriptions.length = a.assays.length →
        a.loadKin listings descriptions paths channel exposure =
          .ok { a with assays := a.assays.map (fun kv =>
            (kv.1, match (descriptions.zip paths).find? (fun dp => dp.1 == kv.1) with
                   | some dp => { kv.2 with series := some (ts dp.1 dp.2) }
                   | none => kv.2)) }) := by
  by_cases hlen : descriptions.length = a.assays.length
  · have hrefs : zipRefs descriptions paths a.assays.length channel exposure
        = (descriptions.zip paths).map (fun dp => (dp, (channel, exposure))) :=
      zipRefs_eq _ _ _ _ _ hlenp.symm (le_of_eq hlen)
    have hokAux := assignAux_ok (ι := (String × String) × (String × Nat))
      (fun it => it.1.1)
      (fun it => (timecourseInit a.device it.1.1).loadFiles it.1.2 (listings it.1.2)
          it.2.1 it.2.2 none none)
      (fun it => ts it.1.1 it.1.2)
      (fun asy t => { asy with series := some t })
      ((descriptions.zip paths).map (fun dp => (dp, (channel, exposure))))
      a.assays
      (by
        rw [List.map_map]
        have : ((descriptions.zip paths).map
            (fun dp => ((fun it : (String × String) × (String × Nat) => it.1.1)
              ((fun dp : String × String => (dp, (channel, exposure))) dp)))) =
            (descriptions.zip paths).map Prod.fst := rfl
        rw [Function.comp_def, this, List.map_fst_zip _ _ (le_of_eq hlenp.symm)]
        exact hnd)
      (by
        intro it hit
        obtain ⟨dp, hdp, rfl⟩ := List.mem_map.mp hit
        exact hload dp.1 dp.2)
      (by
        intro it hit
        obtain ⟨dp, hdp, rfl⟩ := List.mem_map.mp hit
        have hdp1 : dp.1 ∈ descriptions := by
          have := List.of_mem_zip (show (dp.1, dp.2) ∈ descriptions.zip paths from hdp)
          exact this.1
        exact hkeys dp.1 hdp1)
    have hok : a.loadKin listings descriptions paths channel exposure =
        .ok { a with assays := a.assays.map (fun kv =>
          (kv.1, match (descriptions.zip paths).find? (fun dp => dp.1 == kv.1) with
                 | some dp => { kv.2 with series := some (ts dp.1 dp.2) }
                 | none => kv.2)) } := by
      simp only [AssaySeriesS.loadKin, hrefs]
      rw [if_neg (by simp [hlen])]
      rw [hokAux]
      simp only [except_bind_ok]
      refine congrArg Except.ok ?_
      congr 1
      apply List.map_congr_left
      intro kv hkv
      simp only [find?_map_local]
      cases h : (descriptions.zip paths).find? (fun dp => dp.1 == kv.1) <;> simp [h]
    refine ⟨?_, fun _ => hok⟩
    rw [hok]
    simp [hlen]
  · have herr : a.loadKin listings descriptions paths channel exposure =
        .error (.valueError kinLenMsg) := by
      simp [AssaySeriesS.loadKin, hlen]
    exact ⟨by simp [herr, hlen], fun h => absurd h hlen⟩

/-- C6 witness: two assays `A`, `B`, descriptions in order with one path
each over empty directories. -/
theorem C6_load_kin_witness :
    (wSeries.loadKin (fun _ => []) ["A", "B"] ["p", "q"] "c" 1
        = .error (.valueError kinLenMsg)
      ↔ (["A", "B"] : List String).length ≠ wSeries.assays.length)
    ∧ ((["A", "B"] : List String).length = wSeries.assays.length →
        wSeries.loadKin (fun _ => []) ["A", "B"] ["p", "q"] "c" 1 =
          .ok { wSeries with assays := wSeries.assays.map (fun kv =>
            (kv.1, match ((["A", "B"] : List String).zip ["p", "q"]).find?
                      (fun dp => dp.1 == kv.1) with
                   | some dp => { kv.2 with series := some (wTS dp.1 dp.2) }
                   | none => kv.2)) }) :=
  C6_load_kin wSeries (fun _ => []) ["A", "B"] ["p", "q"] "c" 1 wTS rfl
    (by decide) (by decide) (fun d p => rfl)

/-- C7: `load_quants` rejects unequal-length descriptions and paths with
its defined `ValueError`; with exactly one path (and one description) it
broadcasts that path, appending exactly one fresh `Button_Quant` to every
assay; with `N ≥ 2` paths matching `N` distinct descriptions that name
existing assays it appends exactly one fresh quant to each matching
assay's list, pairing descriptions with paths by position, and leaves the
other assays untouched. -/
theorem C7_load_quants (a : AssaySeriesS) (channel : String) (exposure : Nat)
    (hknd : (a.assays.map Prod.fst).Nodup) :
    (∀ descriptions paths : List String, descriptions.length ≠ paths.length →
        a.loadQuants descriptions paths channel exposure = .error (.valueError quantLenMsg))
    ∧ (∀ d p, a.loadQuants [d] [p] channel exposure =
        .ok { a with assays := a.assays.map (fun kv =>
          (kv.1, { kv.2 with
            quants := kv.2.quants ++ [quantOf a.device p channel exposure] })) })
    ∧ (∀ descriptions paths : List String, descriptions.length = paths.length →
        descriptions.length ≠ 1 → descriptions.Nodup →
        (∀ d ∈ descriptions, a.assays.any (fun kv => kv.1 == d) = true) →
        descriptions.length ≤ a.assays.length →
        a.loadQuants descriptions paths channel exposure =
          .ok { a with assays := a.assays.map (fun kv =>
            (kv.1, match (descriptions.zip paths).find? (fun dp => dp.1 == kv.1) with
                   | some dp => { kv.2 with
                       quants := kv.2.quants ++ [quantOf a.device dp.2 channel exposure] }
                   | none => kv.2)) }) := by
  refine ⟨?_, ?_, ?_⟩
  · intro descriptions paths hne
    simp [AssaySeriesS.loadQuants, hne]
  · intro d p
    have hlenkeys : (a.assays.map Prod.fst).length = a.assays.length :=
      List.length_map _ _
    have hokAux := assignAux_ok (ι := (String × String) × (String × Nat))
      (fun it => it.1.1)
      (fun it => pure (quantOf a.device it.1.2 it.2.1 it.2.2))
      (fun it => quantOf a.device it.1.2 it.2.1 it.2.2)
      (fun asy q => { asy with quants := asy.quants ++ [q] })
      ((a.assays.map Prod.fst).map (fun k => ((k, p), (channel, exposure))))
      a.assays
      (by rw [List.map_map]; simpa [Function.comp] using hknd)
      (fun it hit => rfl)
      (by
        intro it hit
        obtain ⟨k, hk, rfl⟩ := List.mem_map.mp hit
        exact any_beq_of_mem a.assays k hk)
    have hflat : (List.replicate a.assays.length [p]).flatten
        = List.replicate a.assays.length p := flatten_replicate_singleton p _
    have hzip : (a.assays.map Prod.fst).zip (List.replicate a.assays.length p)
        = (a.assays.map Prod.fst).map (fun k => (k, p)) :=
      zip_replicate_of_le p _ _ (le_of_eq hlenkeys)
    have hrefs : zipRefs (a.assays.map Prod.fst) (List.replicate a.assays.length p)
        a.assays.length channel exposure
        = ((a.assays.map Prod.fst).map (fun k => ((k, p), (channel, exposure)))) := by
      rw [zipRefs_eq _ _ _ _ _ (by simp) (le_of_eq hlenkeys), hzip, List.map_map]
      rfl
    simp only [AssaySeriesS.loadQuants]
    rw [if_neg (by simp)]
    simp only [List.length_cons, List.length_nil, beq_self_eq_true, if_true,
      Nat.reduceAdd, hflat]
    rw [hrefs, hokAux]
    simp only [except_bind_ok]
    refine congrArg Except.ok ?_
    congr 1
    apply List.map_congr_left
    intro kv hkv
    simp only [find?_map_local]
    obtain ⟨kv0, hkv0, hfst⟩ :=
      find?_fst_beq a.assays kv.1 (List.mem_map_of_mem Prod.fst hkv)
    rw [hkv0]
    simp [hfst]
  · intro descriptions paths hlen hN hnd hkeys hle
    have hrefs : zipRefs descriptions paths a.assays.length channel exposure
        = (descriptions.zip paths).map (fun dp => (dp, (channel, exposure))) :=
      zipRefs_eq _ _ _ _ _ hlen hle
    have hokAux := assignAux_ok (ι := (String × String) × (String × Nat))
      (fun it => it.1.1)
      (fun it => pure (quantOf a.device it.1.2 it.2.1 it.2.2))
      (fun it => quantOf a.device it.1.2 it.2.1 it.2.2)
      (fun asy q => { asy with quants := asy.quants ++ [q] })
      ((descriptions.zip paths).map (fun dp => (dp, (channel, exposure))))
      a.assays
      (by
        rw [List.map_map]
        have h2 : ((descriptions.zip paths).map
            (fun dp => ((fun it : (String × String) × (String × Nat) => it.1.1)
              ((fun dp : String × String => (dp, (channel, exposure))) dp)))) =
            (descriptions.zip paths).map Prod.fst := rfl
        rw [Function.comp_def, h2, List.map_fst_zip _ _ (le_of_eq hlen)]
        exact hnd)
      (fun it hit => rfl)
      (by
        intro it hit
        obtain ⟨dp, hdp, rfl⟩ := List.mem_map.mp hit
        have hdp1 : dp.1 ∈ descriptions :=
          (List.of_mem_zip (show (dp.1, dp.2) ∈ descriptions.zip paths from hdp)).1
        exact hkeys dp.1 hdp1)
    have hN2 : (descriptions.length == 1) = false := by
      simp only [beq_eq_false_iff_ne, ne_eq]
      exact hN
    simp only [AssaySeriesS.loadQuants]
    rw [if_neg (by simp [hlen])]
    simp only [hN2, Bool.false_eq_true, if_false, hrefs]
    rw [hokAux]
    simp only [except_bind_ok]
    refine congrArg Except.ok ?_
    congr 1
    apply List.map_congr_left
    intro kv hkv
    simp only [find?_map_local]
    cases h : (descriptions.zip paths).find? (fun dp => dp.1 == kv.1) <;> simp [h]

/-- C7 witness: the three behaviours on the concrete two-assay series. -/
theorem C7_load_quants_witness :
    (∀ descriptions paths : List String, descriptions.length ≠ paths.length →
        wSeries.loadQuants descriptions paths "c" 1 = .error (.valueError quantLenMsg))
    ∧ (∀ d p, wSeries.loadQuants [d] [p] "c" 1 =
        .ok { wSeries with assays := wSeries.assays.map (fun kv =>
          (kv.1, { kv.2 with
            quants := kv.2.quants ++ [quantOf wSeries.device p "c" 1] })) })
    ∧ (∀ descriptions paths : List String, descriptions.length = paths.length →
        descriptions.length ≠ 1 → descriptions.Nodup →
        (∀ d ∈ descriptions, wSeries.assays.any (fun kv => kv.1 == d) = true) →
        descriptions.length ≤ wSeries.assays.length →
        wSeries.loadQuants descriptions paths "c" 1 =
          .ok { wSeries with assays := wSeries.assays.map (fun kv =>
            (kv.1, match (descriptions.zip paths).find? (fun dp => dp.1 == kv.1) with
                   | some dp => { kv.2 with
                       quants := kv.2.quants ++ [quantOf wSeries.device dp.2 "c" 1] }
                   | none => kv.2)) }) :=
  C7_load_quants wSeries "c" 1 (by decide)
